import Mathlib

/-!
Verification development for the skill-gap-analyzer repository.

The Python sources (`app/gemini_service.py`, `app/resume_parser.py`,
`app/main.py`) are embedded shallowly below:

* Python `dict[str, int]` becomes an association list `List (String × Int)`
  (Python dicts have no duplicate keys, so theorems that need it take a
  `Nodup` hypothesis on the key list); iteration order is list order, which
  matches Python's insertion-order iteration.
* Python string operations are modelled on the character list `String.data`:
  `s.lower()` becomes `strLower` (ASCII lowering, which agrees with Python
  on the ASCII strings the program manipulates) and `a in b` (substring
  test) becomes `pyIn`.
* External collaborators (the Gemini API round trip, `json.loads`, the
  spaCy dependency parse, the PDF/DOCX/TXT byte-to-text converters) are
  parameters of the embedding: arbitrary functions standing for whatever
  those systems return.  A Python call that may raise is a parameter of
  type `Except String α`.
* Python `set` accumulation in `_extract_skills_with_nlp` is modelled as a
  list that may contain duplicates; every property proved below is a
  membership property, unaffected by duplication or by the set's
  unspecified iteration order.
-/

/-! ### String helpers: Python `str.lower` and the `in` substring test -/

/-- Python `s.lower()`, restricted to ASCII case folding
(`app/resume_parser.py` lowercases English text and skill names). -/
def strLower (s : String) : String := String.mk (s.data.map Char.toLower)

/-- Test `isPref n h`: true when the character list `n` is an initial segment of
`h`; building block for the Python substring test. -/
def isPref : List Char → List Char → Bool
  | [], _ => true
  | _ :: _, [] => false
  | a :: as, b :: bs => a == b && isPref as bs

/-- Test `isSub n h`: true when `n` occurs contiguously inside `h`. -/
def isSub (needle : List Char) : List Char → Bool
  | [] => isPref needle []
  | hay@(_ :: t) => isPref needle hay || isSub needle t

/-- Python `needle in hay` for strings: substring containment. -/
def pyIn (needle hay : String) : Bool := isSub needle.data hay.data

@[simp] theorem strLower_empty : strLower "" = "" := rfl

theorem isPref_nil_right {l : List Char} (h : l ≠ []) : isPref l [] = false := by
  cases l with
  | nil => exact absurd rfl h
  | cons a as => rfl

theorem isSub_nil_right {l : List Char} (h : l ≠ []) : isSub l [] = false := by
  cases l with
  | nil => exact absurd rfl h
  | cons a as => rfl

theorem pyIn_empty_hay {s : String} (h : s.data ≠ []) : pyIn s "" = false := by
  unfold pyIn
  exact isSub_nil_right h

theorem strLower_data {s : String} : (strLower s).data = s.data.map Char.toLower := rfl

theorem strLower_ne_empty {s : String} (h : s ≠ "") : (strLower s).data ≠ [] := by
  intro hd
  apply h
  rw [strLower_data] at hd
  have : s.data = [] := List.map_eq_nil_iff.mp hd
  cases s with
  | mk data => simp_all

/-! ### Data model: skill maps and gap entries (`app/gemini_service.py`) -/

/-- A Python `dict[str, int]` of skills to levels, as an association list. -/
abbrev SkillMap := List (String × Int)

/-- Keys of a skill map (or of any association list). -/
def keysOf {β : Type} (m : List (String × β)) : List String := m.map Prod.fst

/-- Python dict lookup: first (only, for duplicate-free dicts) binding of
the key. -/
def dictLookup {β : Type} (s : String) : List (String × β) → Option β
  | [] => none
  | (k, v) :: t => if k = s then some v else dictLookup s t

@[simp] theorem dictLookup_nil {β : Type} {s : String} :
    dictLookup (β := β) s [] = none := rfl

@[simp] theorem dictLookup_cons {β : Type} {s k : String} {v : β}
    {t : List (String × β)} :
    dictLookup s ((k, v) :: t) = if k = s then some v else dictLookup s t := rfl

theorem dictLookup_mem {β : Type} {s : String} {m : List (String × β)} {v : β}
    (h : dictLookup s m = some v) : (s, v) ∈ m := by
  induction m with
  | nil => simp at h
  | cons p t ih =>
    obtain ⟨k, w⟩ := p
    by_cases hk : k = s
    · subst hk
      simp at h
      simp [h]
    · simp [hk] at h
      exact List.mem_cons_of_mem _ (ih h)

theorem dictLookup_eq_none {β : Type} {s : String} {m : List (String × β)} :
    dictLookup s m = none ↔ s ∉ keysOf m := by
  induction m with
  | nil => simp [keysOf]
  | cons p t ih =>
    obtain ⟨k, w⟩ := p
    by_cases hk : k = s
    · subst hk
      simp [keysOf]
    · simp [keysOf, hk, Ne.symm hk] at ih ⊢
      exact ih

/-- One entry of the gap report: the required level and the level the
candidate currently has (0 for a missing skill). -/
structure GapEntry where
  required_level : Int
  current_level : Int
deriving DecidableEq, Repr

/-- The three partitions built by `analyze_skill_gap`
(`app/gemini_service.py`, lines 94–117). -/
structure GapAnalysis where
  missing_skills : List (String × GapEntry)
  matching_skills : List (String × GapEntry)
  below_level_skills : List (String × GapEntry)
deriving DecidableEq, Repr

/-- The classification loop of `analyze_skill_gap`: iterate over
`job_requirements` in order; a skill absent from `resume_skills` goes to
`missing_skills` with `current_level = 0`; one present at `>=` the required
level goes to `matching_skills`; otherwise to `below_level_skills`. -/
def classifyLoop (resume_skills : SkillMap) : SkillMap → GapAnalysis
  | [] => ⟨[], [], []⟩
  | (skill, req_level) :: rest =>
    let g := classifyLoop resume_skills rest
    match dictLookup skill resume_skills with
    | none =>
      { g with missing_skills :=
          (skill, ⟨req_level, 0⟩) :: g.missing_skills }
    | some cur =>
      if cur ≥ req_level then
        { g with matching_skills :=
            (skill, ⟨req_level, cur⟩) :: g.matching_skills }
      else
        { g with below_level_skills :=
            (skill, ⟨req_level, cur⟩) :: g.below_level_skills }

@[simp] theorem classifyLoop_nil {O : SkillMap} :
    classifyLoop O [] = ⟨[], [], []⟩ := rfl

theorem classifyLoop_cons {O : SkillMap} {s : String} {r : Int} {R : SkillMap} :
    classifyLoop O ((s, r) :: R) =
      let g := classifyLoop O R
      match dictLookup s O with
      | none => { g with missing_skills := (s, ⟨r, 0⟩) :: g.missing_skills }
      | some cur =>
        if cur ≥ r then
          { g with matching_skills := (s, ⟨r, cur⟩) :: g.matching_skills }
        else
          { g with below_level_skills := (s, ⟨r, cur⟩) :: g.below_level_skills } := rfl

/-! Membership characterizations of the three partitions. -/

theorem mem_missing_iff {O R : SkillMap} {s : String} {e : GapEntry} :
    (s, e) ∈ (classifyLoop O R).missing_skills ↔
      (s, e.required_level) ∈ R ∧ e.current_level = 0 ∧ dictLookup s O = none := by
  obtain ⟨er, ec⟩ := e
  induction R with
  | nil => simp
  | cons p rest ih =>
    obtain ⟨k, r⟩ := p
    rw [classifyLoop_cons]
    cases hl : dictLookup k O with
    | none =>
      simp only [hl, List.mem_cons, Prod.mk.injEq, GapEntry.mk.injEq, ih]
      constructor
      · rintro (⟨hs, hr, hc⟩ | ⟨hm, hc, ho⟩)
        · subst hs; exact ⟨Or.inl ⟨rfl, hr⟩, hc, hl⟩
        · exact ⟨Or.inr hm, hc, ho⟩
      · rintro ⟨hs | hm, hc, ho⟩
        · obtain ⟨h1, h2⟩ := hs
          subst h1
          exact Or.inl ⟨rfl, h2, hc⟩
        · exact Or.inr ⟨hm, hc, ho⟩
    | some cur =>
      by_cases hge : cur ≥ r <;>
        · simp only [hl, hge, if_pos, if_neg, ite_true, ite_false,
            List.mem_cons, Prod.mk.injEq, ih]
          constructor
          · rintro ⟨hm, hc, ho⟩
            exact ⟨Or.inr hm, hc, ho⟩
          · rintro ⟨hs | hm, hc, ho⟩
            · obtain ⟨h1, _⟩ := hs
              subst h1
              rw [hl] at ho
              exact absurd ho (by simp)
            · exact ⟨hm, hc, ho⟩

theorem mem_matching_iff {O R : SkillMap} {s : String} {e : GapEntry} :
    (s, e) ∈ (classifyLoop O R).matching_skills ↔
      (s, e.required_level) ∈ R ∧ dictLookup s O = some e.current_level ∧
        e.current_level ≥ e.required_level := by
  obtain ⟨er, ec⟩ := e
  induction R with
  | nil => simp
  | cons p rest ih =>
    obtain ⟨k, r⟩ := p
    rw [classifyLoop_cons]
    cases hl : dictLookup k O with
    | none =>
      simp only [hl, List.mem_cons, Prod.mk.injEq, ih]
      constructor
      · rintro ⟨hm, ho, hge⟩
        exact ⟨Or.inr hm, ho, hge⟩
      · rintro ⟨hs | hm, ho, hge⟩
        · obtain ⟨h1, _⟩ := hs
          subst h1
          rw [hl] at ho
          exact absurd ho (by simp)
        · exact ⟨hm, ho, hge⟩
    | some cur =>
      by_cases hge : cur ≥ r
      · simp only [hl, if_pos hge, List.mem_cons, Prod.mk.injEq,
          GapEntry.mk.injEq, ih]
        constructor
        · rintro (⟨hs, hr, hc⟩ | ⟨hm, ho, h3⟩)
          · subst hs; subst hr; subst hc
            exact ⟨Or.inl ⟨rfl, rfl⟩, hl, hge⟩
          · exact ⟨Or.inr hm, ho, h3⟩
        · rintro ⟨hs | hm, ho, h3⟩
          · obtain ⟨h1, h2⟩ := hs
            subst h1; subst h2
            rw [hl] at ho
            have : ec = cur := by
              have := Option.some.injEq .. ▸ ho
              omega
            exact Or.inl ⟨rfl, rfl, this⟩
          · exact Or.inr ⟨hm, ho, h3⟩
      · simp only [hl, if_neg hge, List.mem_cons, Prod.mk.injEq, ih]
        constructor
        · rintro ⟨hm, ho, h3⟩
          exact ⟨Or.inr hm, ho, h3⟩
        · rintro ⟨hs | hm, ho, h3⟩
          · obtain ⟨h1, h2⟩ := hs
            subst h1; subst h2
            rw [hl] at ho
            have : ec = cur := by
              have := Option.some.injEq .. ▸ ho
              omega
            subst this
            exact absurd h3 hge
          · exact ⟨hm, ho, h3⟩

theorem mem_below_iff {O R : SkillMap} {s : String} {e : GapEntry} :
    (s, e) ∈ (classifyLoop O R).below_level_skills ↔
      (s, e.required_level) ∈ R ∧ dictLookup s O = some e.current_level ∧
        e.current_level < e.required_level := by
  obtain ⟨er, ec⟩ := e
  induction R with
  | nil => simp
  | cons p rest ih =>
    obtain ⟨k, r⟩ := p
    rw [classifyLoop_cons]
    cases hl : dictLookup k O with
    | none =>
      simp only [hl, List.mem_cons, Prod.mk.injEq, ih]
      constructor
      · rintro ⟨hm, ho, hlt⟩
        exact ⟨Or.inr hm, ho, hlt⟩
      · rintro ⟨hs | hm, ho, hlt⟩
        · obtain ⟨h1, _⟩ := hs
          subst h1
          rw [hl] at ho
          exact absurd ho (by simp)
        · exact ⟨hm, ho, hlt⟩
    | some cur =>
      by_cases hge : cur ≥ r
      · simp only [hl, if_pos hge, List.mem_cons, Prod.mk.injEq, ih]
        constructor
        · rintro ⟨hm, ho, hlt⟩
          exact ⟨Or.inr hm, ho, hlt⟩
        · rintro ⟨hs | hm, ho, hlt⟩
          · obtain ⟨h1, h2⟩ := hs
            subst h1; subst h2
            rw [hl] at ho
            have : ec = cur := by
              have := Option.some.injEq .. ▸ ho
              omega
            subst this
            omega
          · exact ⟨hm, ho, hlt⟩
      · simp only [hl, if_neg hge, List.mem_cons, Prod.mk.injEq,
          GapEntry.mk.injEq, ih]
        constructor
        · rintro (⟨hs, hr, hc⟩ | ⟨hm, ho, hlt⟩)
          · subst hs; subst hr; subst hc
            exact ⟨Or.inl ⟨rfl, rfl⟩, hl, by omega⟩
          · exact ⟨Or.inr hm, ho, hlt⟩
        · rintro ⟨hs | hm, ho, hlt⟩
          · obtain ⟨h1, h2⟩ := hs
            subst h1; subst h2
            rw [hl] at ho
            have : ec = cur := by
              have := Option.some.injEq .. ▸ ho
              omega
            exact Or.inl ⟨rfl, rfl, this⟩
          · exact Or.inr ⟨hm, ho, hlt⟩

/-! ### Key-list lemmas -/

@[simp] theorem keysOf_nil {β : Type} : keysOf (β := β) [] = [] := rfl

@[simp] theorem keysOf_cons {β : Type} {p : String × β} {l : List (String × β)} :
    keysOf (p :: l) = p.1 :: keysOf l := rfl

theorem mem_keysOf {β : Type} {l : List (String × β)} {s : String} :
    s ∈ keysOf l ↔ ∃ b, (s, b) ∈ l := by
  induction l with
  | nil => simp
  | cons p t ih =>
    obtain ⟨k, v⟩ := p
    simp only [keysOf_cons, List.mem_cons, ih, Prod.mk.injEq]
    constructor
    · rintro (h | ⟨b, hb⟩)
      · exact ⟨v, Or.inl ⟨h, rfl⟩⟩
      · exact ⟨b, Or.inr hb⟩
    · rintro ⟨b, ⟨h1, _⟩ | hb⟩
      · exact Or.inl h1
      · exact Or.inr ⟨b, hb⟩

theorem keys_nodup_unique {β : Type} {l : List (String × β)}
    (h : (keysOf l).Nodup) {s : String} {a b : β}
    (ha : (s, a) ∈ l) (hb : (s, b) ∈ l) : a = b := by
  induction l with
  | nil => simp at ha
  | cons p t ih =>
    obtain ⟨k, v⟩ := p
    simp only [keysOf_cons, List.nodup_cons] at h
    rcases List.mem_cons.mp ha with ha1 | ha1 <;>
      rcases List.mem_cons.mp hb with hb1 | hb1
    · obtain ⟨_, h2⟩ := Prod.mk.injEq .. ▸ ha1
      obtain ⟨_, h4⟩ := Prod.mk.injEq .. ▸ hb1
      exact h2.trans h4.symm
    · obtain ⟨h1, _⟩ := Prod.mk.injEq .. ▸ ha1
      exact absurd (mem_keysOf.mpr ⟨b, hb1⟩) (h1 ▸ h.1)
    · obtain ⟨h1, _⟩ := Prod.mk.injEq .. ▸ hb1
      exact absurd (mem_keysOf.mpr ⟨a, ha1⟩) (h1 ▸ h.1)
    · exact ih h.2 ha1 hb1

/-- Each partition's key list is a sublist of the key list of
`job_requirements` (the loop visits each required skill once and files it
into exactly one partition). -/
theorem partition_keys_sublist {O R : SkillMap} :
    List.Sublist (keysOf (classifyLoop O R).missing_skills) (keysOf R) ∧
    List.Sublist (keysOf (classifyLoop O R).matching_skills) (keysOf R) ∧
    List.Sublist (keysOf (classifyLoop O R).below_level_skills) (keysOf R) := by
  induction R with
  | nil => simp
  | cons p rest ih =>
    obtain ⟨k, r⟩ := p
    obtain ⟨h1, h2, h3⟩ := ih
    rw [classifyLoop_cons]
    cases hl : dictLookup k O with
    | none =>
      refine ⟨?_, ?_, ?_⟩
      · simpa using List.Sublist.cons₂ k h1
      · simpa using List.Sublist.cons k h2
      · simpa using List.Sublist.cons k h3
    | some cur =>
      by_cases hge : cur ≥ r
      · simp only [if_pos hge]
        refine ⟨?_, ?_, ?_⟩
        · simpa using List.Sublist.cons k h1
        · simpa using List.Sublist.cons₂ k h2
        · simpa using List.Sublist.cons k h3
      · simp only [if_neg hge]
        refine ⟨?_, ?_, ?_⟩
        · simpa using List.Sublist.cons k h1
        · simpa using List.Sublist.cons k h2
        · simpa using List.Sublist.cons₂ k h3

/-! ### The external generation service (`app/gemini_service.py`) -/

/-- The tagged result dictionary (key `success`, then `data` or `error`) returned by
`generate_learning_path` and `get_skill_improvement_tips`: either
`success = True` with a data payload or `success = False` with an error
string.  The payload (parsed JSON) is opaque to the core and is modelled
as a `String`. -/
inductive GenResult where
  | success (data : String)
  | failure (error : String)
deriving DecidableEq, Repr

/-- Function `generate_learning_path` (`app/gemini_service.py`, lines 20–81).  The
fallible externals inside its `try` block are parameters:
`generate_content` is the Gemini round trip (either the response text or a
raised exception), `clean` is the pure markdown-fence cleanup
(`.strip`/`.replace`), and `json_loads` is the JSON parser (either parsed
data or a raised exception).  The `except` clause turns any raised
exception into `success = False` with the error string. -/
def generate_learning_path (generate_content : Except String String)
    (json_loads : String → Except String String)
    (clean : String → String) : GenResult :=
  match generate_content with
  | .error e => .failure e
  | .ok response_text =>
    match json_loads (clean response_text) with
    | .error e => .failure e
    | .ok response_data => .success response_data

/-- Function `get_skill_improvement_tips` (`app/gemini_service.py`, lines 147–194):
same `try`/`except` shape as `generate_learning_path`, but invoked with
only a skill and its current level (its prompt targets
`current_level + 1`). -/
def get_skill_improvement_tips (generate_content : Except String String)
    (json_loads : String → Except String String)
    (clean : String → String) : GenResult :=
  match generate_content with
  | .error e => .failure e
  | .ok response_text =>
    match json_loads (clean response_text) with
    | .error e => .failure e
    | .ok response_data => .success response_data

/-- A recorded invocation of the generation collaborator:
`(skill, current_level, target_level)`. -/
abbrev GenCall := String × Int × Int

/-- The first learning-path loop of `analyze_skill_gap` (lines 122–130):
for each missing skill, call the generator with `current_level = 0` and the
required level; keep the payload only on success.  The second component
records the sequence of calls made. -/
def missingPathsLoop (gen : String → Int → Int → GenResult) :
    List (String × GapEntry) → List (String × String) × List GenCall
  | [] => ([], [])
  | (skill, data) :: rest =>
    let result := gen skill 0 data.required_level
    let r := missingPathsLoop gen rest
    ⟨(match result with
      | .success d => (skill, d) :: r.1
      | .failure _ => r.1),
     (skill, 0, data.required_level) :: r.2⟩

/-- The second learning-path loop of `analyze_skill_gap` (lines 132–140):
for each below-level skill, call the generator with the current and
required levels; keep the payload only on success. -/
def belowPathsLoop (gen : String → Int → Int → GenResult) :
    List (String × GapEntry) → List (String × String) × List GenCall
  | [] => ([], [])
  | (skill, data) :: rest =>
    let result := gen skill data.current_level data.required_level
    let r := belowPathsLoop gen rest
    ⟨(match result with
      | .success d => (skill, d) :: r.1
      | .failure _ => r.1),
     (skill, data.current_level, data.required_level) :: r.2⟩

/-- The dictionary returned by `analyze_skill_gap` (lines 142–145), plus
the instrumented sequence of generation calls the function made. -/
structure AnalysisResult where
  gap_analysis : GapAnalysis
  learning_paths : List (String × String)
  calls : List GenCall
deriving DecidableEq, Repr

/-- Function `analyze_skill_gap` (`app/gemini_service.py`, lines 83–145): classify
every required skill, then run the two learning-path loops (missing skills
first, then below-level skills).  `gen` abstracts
`generate_learning_path`'s behaviour per `(skill, current, target)`. -/
def analyze_skill_gap (gen : String → Int → Int → GenResult)
    (resume_skills job_requirements : SkillMap) : AnalysisResult :=
  let gap_analysis := classifyLoop resume_skills job_requirements
  let m := missingPathsLoop gen gap_analysis.missing_skills
  let b := belowPathsLoop gen gap_analysis.below_level_skills
  ⟨gap_analysis, m.1 ++ b.1, m.2 ++ b.2⟩

theorem missingPathsLoop_calls {gen : String → Int → Int → GenResult}
    {l : List (String × GapEntry)} :
    (missingPathsLoop gen l).2 = l.map (fun p => (p.1, 0, p.2.required_level)) := by
  induction l with
  | nil => rfl
  | cons p rest ih =>
    obtain ⟨skill, data⟩ := p
    simp only [missingPathsLoop, ih, List.map_cons]

theorem belowPathsLoop_calls {gen : String → Int → Int → GenResult}
    {l : List (String × GapEntry)} :
    (belowPathsLoop gen l).2 =
      l.map (fun p => (p.1, p.2.current_level, p.2.required_level)) := by
  induction l with
  | nil => rfl
  | cons p rest ih =>
    obtain ⟨skill, data⟩ := p
    simp only [belowPathsLoop, ih, List.map_cons]

theorem mem_keys_missingPathsLoop {gen : String → Int → Int → GenResult}
    {l : List (String × GapEntry)} {s : String}
    (h : s ∈ keysOf (missingPathsLoop gen l).1) :
    ∃ e d, (s, e) ∈ l ∧ gen s 0 e.required_level = .success d := by
  induction l with
  | nil => simp [missingPathsLoop] at h
  | cons p rest ih =>
    obtain ⟨skill, data⟩ := p
    simp only [missingPathsLoop] at h
    cases hg : gen skill 0 data.required_level with
    | success d =>
      rw [hg] at h
      simp only [keysOf_cons, List.mem_cons] at h
      rcases h with h | h
      · subst h
        exact ⟨data, d, List.mem_cons_self .., hg⟩
      · obtain ⟨e, d', he, hd⟩ := ih h
        exact ⟨e, d', List.mem_cons_of_mem _ he, hd⟩
    | failure err =>
      rw [hg] at h
      obtain ⟨e, d', he, hd⟩ := ih h
      exact ⟨e, d', List.mem_cons_of_mem _ he, hd⟩

theorem mem_keys_belowPathsLoop {gen : String → Int → Int → GenResult}
    {l : List (String × GapEntry)} {s : String}
    (h : s ∈ keysOf (belowPathsLoop gen l).1) :
    ∃ e d, (s, e) ∈ l ∧
      gen s e.current_level e.required_level = .success d := by
  induction l with
  | nil => simp [belowPathsLoop] at h
  | cons p rest ih =>
    obtain ⟨skill, data⟩ := p
    simp only [belowPathsLoop] at h
    cases hg : gen skill data.current_level data.required_level with
    | success d =>
      rw [hg] at h
      simp only [keysOf_cons, List.mem_cons] at h
      rcases h with h | h
      · subst h
        exact ⟨data, d, List.mem_cons_self .., hg⟩
      · obtain ⟨e, d', he, hd⟩ := ih h
        exact ⟨e, d', List.mem_cons_of_mem _ he, hd⟩
    | failure err =>
      rw [hg] at h
      obtain ⟨e, d', he, hd⟩ := ih h
      exact ⟨e, d', List.mem_cons_of_mem _ he, hd⟩

/-! ### Proficiency estimator (`app/resume_parser.py`, lines 94–129) -/

/-- Tier-5 ("Expert") phrase templates, skill name substituted in. -/
def tier5Phrases (skill_lower : String) : List String :=
  ["expert in " ++ skill_lower, "advanced " ++ skill_lower,
   "senior " ++ skill_lower, "5+ years of " ++ skill_lower]

/-- Tier-4 ("Advanced") phrase templates. -/
def tier4Phrases (skill_lower : String) : List String :=
  ["proficient in " ++ skill_lower, "strong " ++ skill_lower ++ " skills",
   "3-5 years of " ++ skill_lower]

/-- Tier-3 ("Intermediate") phrase templates. -/
def tier3Phrases (skill_lower : String) : List String :=
  ["experience with " ++ skill_lower, "working knowledge of " ++ skill_lower,
   "1-3 years of " ++ skill_lower]

/-- Tier-2 ("Basic") phrase templates. -/
def tier2Phrases (skill_lower : String) : List String :=
  ["familiar with " ++ skill_lower, "basic " ++ skill_lower ++ " knowledge",
   "beginner level " ++ skill_lower]

/-- Python `any(phrase in text_lower for phrase in [...])`. -/
def tierHit (phrases : List String) (text_lower : String) : Bool :=
  phrases.any (fun phrase => pyIn phrase text_lower)

/-- Function `_estimate_proficiency`: check the four tiers highest-first against the
lowercased document text and return the first hit, defaulting to 1. -/
def estimate_proficiency (skill text : String) : Int :=
  let text_lower := strLower text
  let skill_lower := strLower skill
  if tierHit (tier5Phrases skill_lower) text_lower then 5
  else if tierHit (tier4Phrases skill_lower) text_lower then 4
  else if tierHit (tier3Phrases skill_lower) text_lower then 3
  else if tierHit (tier2Phrases skill_lower) text_lower then 2
  else 1

/-! ### Skill extraction (`app/resume_parser.py`, lines 69–92, 131–163) -/

/-- A syntactic child of a token's head, as used by the pattern scan:
its dependency label (`child.dep_`) and surface text (`child.text`). -/
structure DepChild where
  dep : String
  text : String
deriving DecidableEq, Repr

/-- The slice of a spaCy token that `_extract_skills_with_nlp` reads:
its surface text, its syntactic head's text, and the head's children. -/
structure NlpToken where
  text : String
  headText : String
  headChildren : List DepChild
deriving DecidableEq, Repr

/-- The skill ontology: category name to the skill names of that category
(the code only ever reads `skills_data.keys()` and tests key membership,
so the per-skill metadata values are dropped). -/
structure Ontology where
  skills : List (String × List String)
deriving DecidableEq, Repr

/-- The trigger words of the pattern scan (line 86). -/
def proficiencyTriggers : List String :=
  ["experience", "proficient", "skilled", "familiar"]

/-- The dependency labels accepted for a head's child (line 89). -/
def objectDeps : List String := ["dobj", "attr", "conj"]

/-- The pattern scan of `_extract_skills_with_nlp` (lines 84–90): for each
token whose lowercased text is a trigger word and whose head is not
"with", collect the surface text of the head's children bearing an
accepted dependency label.  The token list is the spaCy parse of the
lowercased document text, supplied by the external `nlp` collaborator. -/
def patternScan (doc : List NlpToken) : List String :=
  doc.flatMap (fun tok =>
    if proficiencyTriggers.contains (strLower tok.text) &&
        strLower tok.headText != "with" then
      (tok.headChildren.filter (fun c => objectDeps.contains c.dep)).map
        (fun c => c.text)
    else [])

/-- The ontology scan of `_extract_skills_with_nlp` (lines 77–81): every
ontology skill whose lowercased name occurs as a substring of the
lowercased document text. -/
def ontologyScan (ont : Ontology) (text : String) : List String :=
  ont.skills.flatMap (fun cat =>
    cat.2.filter (fun skill => pyIn (strLower skill) (strLower text)))

/-- Function `_extract_skills_with_nlp`: the union of the ontology scan and the
pattern scan.  The Python `set` is modelled as a concatenated list; all
properties proved about it are membership properties, which coincide. -/
def extract_skills_with_nlp (ont : Ontology) (nlp : String → List NlpToken)
    (text : String) : List String :=
  ontologyScan ont text ++ patternScan (nlp (strLower text))

/-- The exact-key membership test of `parse_resume`'s filter loop
(lines 153–158): Python `skill in skills_data` for some category, a
case-sensitive dictionary-key test. -/
def ontologyHasExact (ont : Ontology) (skill : String) : Bool :=
  ont.skills.any (fun cat => cat.2.contains skill)

/-- The skill-scoring part of `parse_resume` (lines 147–163): keep each
extracted candidate only if it is an exact ontology key, and score it with
`_estimate_proficiency` against the full document text. -/
def skillLevelsFromText (ont : Ontology) (nlp : String → List NlpToken)
    (text : String) : SkillMap :=
  (extract_skills_with_nlp ont nlp text).filterMap (fun skill =>
    if ontologyHasExact ont skill then
      some (skill, estimate_proficiency skill text)
    else none)

/-! ### Text extraction and `parse_resume` (`app/resume_parser.py`) -/

/-- A file path as `extract_text` sees it: the path (for error messages)
and its `pathlib` suffix (final extension, including the dot). -/
structure FsPath where
  path : String
  suffix : String
deriving DecidableEq, Repr

/-- The three format-specific converters (`extract_text_from_pdf` /
`_docx` / `_txt`): external byte-to-text collaborators that either return
the document text or raise. -/
structure TextExtractors where
  pdf : FsPath → Except String String
  docx : FsPath → Except String String
  txt : FsPath → Except String String

/-- Function `extract_text` (lines 55–67): dispatch on the lowercased suffix;
any other extension raises `ValueError("Unsupported file format: ...")`. -/
def extract_text (ex : TextExtractors) (file_path : FsPath) :
    Except String String :=
  let suffix := strLower file_path.suffix
  if suffix = ".pdf" then ex.pdf file_path
  else if suffix = ".docx" then ex.docx file_path
  else if suffix = ".txt" then ex.txt file_path
  else .error ("Unsupported file format: " ++ suffix)

/-- Function `parse_resume` (lines 131–163): extract the text (re-raising any
failure as a `ValueError` for this document), then extract and score the
skills.  On extraction failure no skill extraction happens. -/
def parse_resume (ont : Ontology) (nlp : String → List NlpToken)
    (ex : TextExtractors) (file_path : FsPath) : Except String SkillMap :=
  match extract_text ex file_path with
  | .error e =>
    .error ("Error extracting text from " ++ file_path.path ++ ": " ++ e)
  | .ok text => .ok (skillLevelsFromText ont nlp text)

/-! ### Claim theorems: gap classification -/

/-- Key-level characterization of the `missing_skills` partition. -/
theorem keys_missing_iff {O R : SkillMap} {s : String} :
    s ∈ keysOf (classifyLoop O R).missing_skills ↔
      s ∈ keysOf R ∧ dictLookup s O = none := by
  rw [mem_keysOf]
  constructor
  · rintro ⟨e, he⟩
    obtain ⟨h1, _, h3⟩ := mem_missing_iff.mp he
    exact ⟨mem_keysOf.mpr ⟨_, h1⟩, h3⟩
  · rintro ⟨hs, hn⟩
    obtain ⟨r, hr⟩ := mem_keysOf.mp hs
    exact ⟨⟨r, 0⟩, mem_missing_iff.mpr ⟨hr, rfl, hn⟩⟩

/-- Key-level characterization of the `matching_skills` partition. -/
theorem keys_matching_iff {O R : SkillMap} {s : String} :
    s ∈ keysOf (classifyLoop O R).matching_skills ↔
      ∃ r c, (s, r) ∈ R ∧ dictLookup s O = some c ∧ c ≥ r := by
  rw [mem_keysOf]
  constructor
  · rintro ⟨e, he⟩
    obtain ⟨h1, h2, h3⟩ := mem_matching_iff.mp he
    exact ⟨e.required_level, e.current_level, h1, h2, h3⟩
  · rintro ⟨r, c, hr, hc, hge⟩
    exact ⟨⟨r, c⟩, mem_matching_iff.mpr ⟨hr, hc, hge⟩⟩

/-- Key-level characterization of the `below_level_skills` partition. -/
theorem keys_below_iff {O R : SkillMap} {s : String} :
    s ∈ keysOf (classifyLoop O R).below_level_skills ↔
      ∃ r c, (s, r) ∈ R ∧ dictLookup s O = some c ∧ c < r := by
  rw [mem_keysOf]
  constructor
  · rintro ⟨e, he⟩
    obtain ⟨h1, h2, h3⟩ := mem_below_iff.mp he
    exact ⟨e.required_level, e.current_level, h1, h2, h3⟩
  · rintro ⟨r, c, hr, hc, hlt⟩
    exact ⟨⟨r, c⟩, mem_below_iff.mpr ⟨hr, hc, hlt⟩⟩

/-- C1: for every observed map `O` and required map `R` (with
duplicate-free keys, as every Python dict has), the three partitions
built by `analyze_skill_gap` have pairwise disjoint key sets whose union
is exactly the key set of `R`; a skill observed in `O` but absent from
`R` appears in none of the three partitions. -/
theorem C1_partition_exact_cover {O R : SkillMap} (hR : (keysOf R).Nodup) :
    (∀ s : String,
      (s ∈ keysOf (classifyLoop O R).missing_skills ∨
       s ∈ keysOf (classifyLoop O R).matching_skills ∨
       s ∈ keysOf (classifyLoop O R).below_level_skills) ↔ s ∈ keysOf R) ∧
    (∀ s : String,
      ¬(s ∈ keysOf (classifyLoop O R).missing_skills ∧
        s ∈ keysOf (classifyLoop O R).matching_skills) ∧
      ¬(s ∈ keysOf (classifyLoop O R).missing_skills ∧
        s ∈ keysOf (classifyLoop O R).below_level_skills) ∧
      ¬(s ∈ keysOf (classifyLoop O R).matching_skills ∧
        s ∈ keysOf (classifyLoop O R).below_level_skills)) ∧
    (∀ s : String, s ∈ keysOf O → s ∉ keysOf R →
      s ∉ keysOf (classifyLoop O R).missing_skills ∧
      s ∉ keysOf (classifyLoop O R).matching_skills ∧
      s ∉ keysOf (classifyLoop O R).below_level_skills) := by
  refine ⟨?_, ?_, ?_⟩
  · intro s
    constructor
    · rintro (h | h | h)
      · exact (keys_missing_iff.mp h).1
      · obtain ⟨r, c, hr, _, _⟩ := keys_matching_iff.mp h
        exact mem_keysOf.mpr ⟨r, hr⟩
      · obtain ⟨r, c, hr, _, _⟩ := keys_below_iff.mp h
        exact mem_keysOf.mpr ⟨r, hr⟩
    · intro hs
      obtain ⟨r, hr⟩ := mem_keysOf.mp hs
      cases hl : dictLookup s O with
      | none => exact Or.inl (keys_missing_iff.mpr ⟨hs, hl⟩)
      | some c =>
        by_cases hge : c ≥ r
        · exact Or.inr (Or.inl (keys_matching_iff.mpr ⟨r, c, hr, hl, hge⟩))
        · exact Or.inr (Or.inr (keys_below_iff.mpr ⟨r, c, hr, hl, by omega⟩))
  · intro s
    refine ⟨?_, ?_, ?_⟩
    · rintro ⟨h1, h2⟩
      obtain ⟨_, hn⟩ := keys_missing_iff.mp h1
      obtain ⟨r, c, _, hc, _⟩ := keys_matching_iff.mp h2
      rw [hn] at hc
      exact absurd hc (by simp)
    · rintro ⟨h1, h2⟩
      obtain ⟨_, hn⟩ := keys_missing_iff.mp h1
      obtain ⟨r, c, _, hc, _⟩ := keys_below_iff.mp h2
      rw [hn] at hc
      exact absurd hc (by simp)
    · rintro ⟨h1, h2⟩
      obtain ⟨r1, c1, hr1, hc1, hge⟩ := keys_matching_iff.mp h1
      obtain ⟨r2, c2, hr2, hc2, hlt⟩ := keys_below_iff.mp h2
      have hc : c1 = c2 := by
        rw [hc1] at hc2
        exact Option.some.injEq .. ▸ hc2
      have hr : r1 = r2 := keys_nodup_unique hR hr1 hr2
      omega
  · intro s _hO hsR
    refine ⟨?_, ?_, ?_⟩
    · intro h
      exact hsR (keys_missing_iff.mp h).1
    · intro h
      obtain ⟨r, c, hr, _, _⟩ := keys_matching_iff.mp h
      exact hsR (mem_keysOf.mpr ⟨r, hr⟩)
    · intro h
      obtain ⟨r, c, hr, _, _⟩ := keys_below_iff.mp h
      exact hsR (mem_keysOf.mpr ⟨r, hr⟩)

/-- The sample observed skills of the spec's scenario
(`\x7b"Python": 3, "Machine Learning": 2\x7d`). -/
def sampleObserved : SkillMap := [("Python", 3), ("Machine Learning", 2)]

/-- The sample job requirements of the spec's scenario. -/
def sampleRequired : SkillMap :=
  [("Python", 4), ("Machine Learning", 3), ("Data Analysis", 3)]

/-- Witness for C1 at the spec's scenario inputs. -/
theorem C1_witness :
    (keysOf sampleRequired).Nodup ∧
    (("Data Analysis" ∈ keysOf (classifyLoop sampleObserved sampleRequired).missing_skills ∨
      "Data Analysis" ∈ keysOf (classifyLoop sampleObserved sampleRequired).matching_skills ∨
      "Data Analysis" ∈ keysOf (classifyLoop sampleObserved sampleRequired).below_level_skills) ↔
      "Data Analysis" ∈ keysOf sampleRequired) :=
  ⟨by decide, (C1_partition_exact_cover (by decide)).1 "Data Analysis"⟩

/-- C2: with all levels of `O` and `R` in `[1,5]` and `(s, r)` a binding
of `R`: a skill absent from `O` lands in `missing_skills` with
`current_level = 0`; one observed at `c ≥ r` lands in `matching_skills`
with `current_level = c`; one observed at `c < r` lands in
`below_level_skills` with `current_level = c`, a strictly positive gap
`r - c`, and a strictly positive current level. -/
theorem C2_per_skill_placement {O R : SkillMap} {s : String} {r : Int}
    (hO : ∀ p ∈ O, 1 ≤ p.2 ∧ p.2 ≤ 5)
    (_hR : ∀ p ∈ R, 1 ≤ p.2 ∧ p.2 ≤ 5)
    (hmem : (s, r) ∈ R) :
    (dictLookup s O = none →
      (s, GapEntry.mk r 0) ∈ (classifyLoop O R).missing_skills) ∧
    (∀ c, dictLookup s O = some c → c ≥ r →
      (s, GapEntry.mk r c) ∈ (classifyLoop O R).matching_skills) ∧
    (∀ c, dictLookup s O = some c → c < r →
      (s, GapEntry.mk r c) ∈ (classifyLoop O R).below_level_skills ∧
      r - c > 0 ∧ c > 0) := by
  refine ⟨?_, ?_, ?_⟩
  · intro hn
    exact mem_missing_iff.mpr ⟨hmem, rfl, hn⟩
  · intro c hc hge
    exact mem_matching_iff.mpr ⟨hmem, hc, hge⟩
  · intro c hc hlt
    refine ⟨mem_below_iff.mpr ⟨hmem, hc, hlt⟩, by omega, ?_⟩
    have := hO (s, c) (dictLookup_mem hc)
    omega

/-- Witness for C2 at the spec's scenario inputs: `Python` is observed at
3 against a requirement of 4 and lands below level with gap 1. -/
theorem C2_witness :
    (("Python", (4 : Int)) ∈ sampleRequired) ∧
    (("Python", GapEntry.mk 4 3) ∈
        (classifyLoop sampleObserved sampleRequired).below_level_skills ∧
      (4 : Int) - 3 > 0 ∧ (3 : Int) > 0) :=
  ⟨by decide,
   (C2_per_skill_placement (by decide) (by decide) (by decide)).2.2 3
     (by decide) (by decide)⟩

/-! ### Claim theorems: proficiency estimator -/

/-- C3: `_estimate_proficiency` returns the level of the highest tier
(5, then 4, then 3, then 2) with at least one substituted phrase occurring
as a substring of the lowercased text, and 1 when no tier hits; in
particular a Tier-5 hit forces the result 5 regardless of lower tiers. -/
theorem C3_estimator_tier_precedence (skill text : String) :
    (tierHit (tier5Phrases (strLower skill)) (strLower text) = true →
      estimate_proficiency skill text = 5) ∧
    (estimate_proficiency skill text = 5 ↔
      tierHit (tier5Phrases (strLower skill)) (strLower text) = true) ∧
    (estimate_proficiency skill text = 4 ↔
      (tierHit (tier5Phrases (strLower skill)) (strLower text) = false ∧
       tierHit (tier4Phrases (strLower skill)) (strLower text) = true)) ∧
    (estimate_proficiency skill text = 3 ↔
      (tierHit (tier5Phrases (strLower skill)) (strLower text) = false ∧
       tierHit (tier4Phrases (strLower skill)) (strLower text) = false ∧
       tierHit (tier3Phrases (strLower skill)) (strLower text) = true)) ∧
    (estimate_proficiency skill text = 2 ↔
      (tierHit (tier5Phrases (strLower skill)) (strLower text) = false ∧
       tierHit (tier4Phrases (strLower skill)) (strLower text) = false ∧
       tierHit (tier3Phrases (strLower skill)) (strLower text) = false ∧
       tierHit (tier2Phrases (strLower skill)) (strLower text) = true)) ∧
    (estimate_proficiency skill text = 1 ↔
      (tierHit (tier5Phrases (strLower skill)) (strLower text) = false ∧
       tierHit (tier4Phrases (strLower skill)) (strLower text) = false ∧
       tierHit (tier3Phrases (strLower skill)) (strLower text) = false ∧
       tierHit (tier2Phrases (strLower skill)) (strLower text) = false)) := by
  unfold estimate_proficiency
  cases h5 : tierHit (tier5Phrases (strLower skill)) (strLower text) <;>
    cases h4 : tierHit (tier4Phrases (strLower skill)) (strLower text) <;>
      cases h3 : tierHit (tier3Phrases (strLower skill)) (strLower text) <;>
        cases h2 : tierHit (tier2Phrases (strLower skill)) (strLower text) <;>
          simp [h5, h4, h3, h2]

/-- Witness for C3: a text holding both a Tier-3 phrase
(`experience with python`) and a Tier-5 phrase (`senior python`) scores 5. -/
theorem C3_witness :
    tierHit (tier3Phrases (strLower "Python"))
        (strLower "Experience with Python and Senior Python work") = true ∧
    tierHit (tier5Phrases (strLower "Python"))
        (strLower "Experience with Python and Senior Python work") = true ∧
    estimate_proficiency "Python"
        "Experience with Python and Senior Python work" = 5 :=
  ⟨by decide, by decide,
   (C3_estimator_tier_precedence "Python"
      "Experience with Python and Senior Python work").1 (by decide)⟩

/-- The estimator only produces levels 1 to 5. -/
theorem estimate_proficiency_range (skill text : String) :
    1 ≤ estimate_proficiency skill text ∧ estimate_proficiency skill text ≤ 5 := by
  simp only [estimate_proficiency]
  split_ifs <;> omega

/-- Every binding of `skillLevelsFromText` carries an estimator score. -/
theorem mem_skillLevels {ont : Ontology} {nlp : String → List NlpToken}
    {text : String} {q : String × Int}
    (h : q ∈ skillLevelsFromText ont nlp text) :
    q.1 ∈ extract_skills_with_nlp ont nlp text ∧
      ontologyHasExact ont q.1 = true ∧
      q.2 = estimate_proficiency q.1 text := by
  unfold skillLevelsFromText at h
  obtain ⟨a, ha, hfa⟩ := List.mem_filterMap.mp h
  cases hx : ontologyHasExact ont a with
  | true =>
    rw [hx] at hfa
    simp only [if_true, reduceIte, Option.some.injEq] at hfa
    subst hfa
    exact ⟨ha, hx, rfl⟩
  | false =>
    rw [hx] at hfa
    simp at hfa

/-- C7: every level stored by `parse_resume` lies in `[1,5]`, and
`_estimate_proficiency` itself never returns a value outside `[1,5]` —
in particular never the sentinel 0. -/
theorem C7_levels_in_range {ont : Ontology} {nlp : String → List NlpToken}
    {ex : TextExtractors} {p : FsPath} {m : SkillMap}
    (h : parse_resume ont nlp ex p = Except.ok m) :
    (∀ q ∈ m, 1 ≤ q.2 ∧ q.2 ≤ 5) ∧
    (∀ skill text, 1 ≤ estimate_proficiency skill text ∧
      estimate_proficiency skill text ≤ 5) := by
  refine ⟨?_, fun skill text => estimate_proficiency_range skill text⟩
  intro q hq
  unfold parse_resume at h
  cases hext : extract_text ex p with
  | error e =>
    rw [hext] at h
    simp at h
  | ok text =>
    rw [hext] at h
    simp only [Except.ok.injEq] at h
    subst h
    obtain ⟨_, _, hq2⟩ := mem_skillLevels hq
    rw [hq2]
    exact estimate_proficiency_range q.1 text

/-- The ontology used by the witness runs (categories with exact-cased
skill names). -/
def sampleOntology : Ontology :=
  ⟨[("programming", ["Python", "Machine Learning"]),
    ("analytics", ["Data Analysis"])]⟩

/-- A linguistic parse producing no tokens (the pattern scan then
contributes no candidates). -/
def sampleNlp : String → List NlpToken := fun _ => []

/-- Converters for the witness runs: only the TXT converter succeeds, and
it yields the spec's scenario sentence. -/
def sampleExtractors : TextExtractors :=
  ⟨fun _ => Except.error "pdf failure",
   fun _ => Except.error "docx failure",
   fun _ => Except.ok "Senior Python engineer with advanced machine learning skills"⟩

/-- The resume path used by the witness runs. -/
def sampleResume : FsPath := ⟨"resume.txt", ".txt"⟩

/-- Witness for C7: a concrete parse run yields levels 5 and 5, inside
`[1,5]`. -/
theorem C7_witness :
    parse_resume sampleOntology sampleNlp sampleExtractors sampleResume =
      Except.ok [("Python", 5), ("Machine Learning", 5)] ∧
    (∀ q ∈ ([("Python", 5), ("Machine Learning", 5)] : SkillMap),
      1 ≤ q.2 ∧ q.2 ≤ 5) :=
  have h : parse_resume sampleOntology sampleNlp sampleExtractors sampleResume =
      Except.ok [("Python", 5), ("Machine Learning", 5)] := rfl
  ⟨h, (C7_levels_in_range h).1⟩

/-! ### Claim theorems: candidate filtering and text extraction -/

/-- Predicate `ontologyHasExact`: true exactly when the name is a key of some
category. -/
theorem ontologyHasExact_iff {ont : Ontology} {s : String} :
    ontologyHasExact ont s = true ↔ ∃ cat ∈ ont.skills, s ∈ cat.2 := by
  unfold ontologyHasExact
  simp [List.any_eq_true, List.contains_iff_exists_mem_beq]

/-- A successful `parse_resume` run is a successful text extraction
followed by `skillLevelsFromText`. -/
theorem parse_resume_ok {ont : Ontology} {nlp : String → List NlpToken}
    {ex : TextExtractors} {p : FsPath} {m : SkillMap}
    (h : parse_resume ont nlp ex p = Except.ok m) :
    ∃ text, extract_text ex p = Except.ok text ∧
      m = skillLevelsFromText ont nlp text := by
  unfold parse_resume at h
  cases hext : extract_text ex p with
  | error e =>
    rw [hext] at h
    simp at h
  | ok text =>
    rw [hext] at h
    simp only [Except.ok.injEq] at h
    exact ⟨text, rfl, h.symm⟩

/-- Every key of `skillLevelsFromText` passes the exact-key filter. -/
theorem keys_skillLevels_exact {ont : Ontology} {nlp : String → List NlpToken}
    {text s : String} (h : s ∈ keysOf (skillLevelsFromText ont nlp text)) :
    ontologyHasExact ont s = true := by
  obtain ⟨v, hv⟩ := mem_keysOf.mp h
  exact (mem_skillLevels hv).2.1

/-- C4: every skill in the map returned by `parse_resume` matches an
ontology key case-insensitively, and a candidate matching no ontology key
case-insensitively never survives into the returned map. -/
theorem C4_ontology_controlled_vocabulary
    {ont : Ontology} {nlp : String → List NlpToken} {ex : TextExtractors}
    {p : FsPath} {m : SkillMap}
    (h : parse_resume ont nlp ex p = Except.ok m) :
    (∀ s ∈ keysOf m, ∃ cat ∈ ont.skills, ∃ k ∈ cat.2,
      strLower k = strLower s) ∧
    (∀ cand : String,
      (∀ cat ∈ ont.skills, ∀ k ∈ cat.2, strLower k ≠ strLower cand) →
      cand ∉ keysOf m) := by
  obtain ⟨text, _, hm⟩ := parse_resume_ok h
  subst hm
  constructor
  · intro s hs
    obtain ⟨cat, hcat, hk⟩ := ontologyHasExact_iff.mp (keys_skillLevels_exact hs)
    exact ⟨cat, hcat, s, hk, rfl⟩
  · intro cand hno hc
    obtain ⟨cat, hcat, hk⟩ := ontologyHasExact_iff.mp (keys_skillLevels_exact hc)
    exact hno cat hcat cand hk rfl

/-- Witness for C4: the concrete run keeps only ontology skills, and a
name outside the ontology (`JavaScript`) is not among the keys. -/
theorem C4_witness :
    parse_resume sampleOntology sampleNlp sampleExtractors sampleResume =
      Except.ok [("Python", 5), ("Machine Learning", 5)] ∧
    "JavaScript" ∉ keysOf ([("Python", 5), ("Machine Learning", 5)] : SkillMap) :=
  have h : parse_resume sampleOntology sampleNlp sampleExtractors sampleResume =
      Except.ok [("Python", 5), ("Machine Learning", 5)] := rfl
  ⟨h, (C4_ontology_controlled_vocabulary h).2 "JavaScript" (by decide)⟩

/-- C10: the final membership test of `parse_resume` is case-sensitive
exact key lookup: every returned key is character-for-character an
ontology key; a returned key that is entirely lowercase certifies an
entirely lowercase ontology key; and when the ontology's keys are
case-insensitively unique the returned map never holds two keys differing
only in case. -/
theorem C10_exact_case_sensitive_filter
    {ont : Ontology} {nlp : String → List NlpToken} {ex : TextExtractors}
    {p : FsPath} {m : SkillMap}
    (h : parse_resume ont nlp ex p = Except.ok m) :
    (∀ s ∈ keysOf m, ontologyHasExact ont s = true) ∧
    (∀ s ∈ keysOf m, strLower s = s →
      ∃ cat ∈ ont.skills, ∃ k ∈ cat.2, k = s ∧ strLower k = k) ∧
    ((∀ cat1 ∈ ont.skills, ∀ k1 ∈ cat1.2, ∀ cat2 ∈ ont.skills, ∀ k2 ∈ cat2.2,
        strLower k1 = strLower k2 → k1 = k2) →
      ∀ s1 ∈ keysOf m, ∀ s2 ∈ keysOf m, strLower s1 = strLower s2 →
        s1 = s2) := by
  obtain ⟨text, _, hm⟩ := parse_resume_ok h
  subst hm
  refine ⟨fun s hs => keys_skillLevels_exact hs, ?_, ?_⟩
  · intro s hs hlow
    obtain ⟨cat, hcat, hk⟩ := ontologyHasExact_iff.mp (keys_skillLevels_exact hs)
    exact ⟨cat, hcat, s, hk, rfl, hlow⟩
  · intro hu s1 hs1 s2 hs2 hlow
    obtain ⟨cat1, hcat1, hk1⟩ :=
      ontologyHasExact_iff.mp (keys_skillLevels_exact hs1)
    obtain ⟨cat2, hcat2, hk2⟩ :=
      ontologyHasExact_iff.mp (keys_skillLevels_exact hs2)
    exact hu cat1 hcat1 s1 hk1 cat2 hcat2 s2 hk2 hlow

/-- Witness for C10: in the concrete run, `Python` is an exact ontology
key. -/
theorem C10_witness :
    parse_resume sampleOntology sampleNlp sampleExtractors sampleResume =
      Except.ok [("Python", 5), ("Machine Learning", 5)] ∧
    ontologyHasExact sampleOntology "Python" = true :=
  have h : parse_resume sampleOntology sampleNlp sampleExtractors sampleResume =
      Except.ok [("Python", 5), ("Machine Learning", 5)] := rfl
  ⟨h, (C10_exact_case_sensitive_filter h).1 "Python" (by decide)⟩

/-- An ontology whose single category holds the empty-string skill name. -/
def emptyKeyOntology : Ontology := ⟨[("misc", [""])]⟩

/-- Counterexample to C8 as stated over every ontology: with an ontology
containing an empty-string skill name, the empty document text yields a
non-empty SkillMap (the empty string is a substring of the empty text,
passes the exact-key filter, and scores 1). -/
theorem C8_counterexample :
    skillLevelsFromText emptyKeyOntology (fun _ => []) "" = [("", 1)] ∧
    skillLevelsFromText emptyKeyOntology (fun _ => []) "" ≠ [] :=
  ⟨rfl, by decide⟩

/-- C8 (amended): for every ontology whose skill names are all nonempty,
and a linguistic parse yielding no tokens on the empty text, skill
extraction from the empty document text returns the empty SkillMap
(and, being a total function, raises nothing). -/
theorem C8_empty_text_amended {ont : Ontology} {nlp : String → List NlpToken}
    (hk : ∀ cat ∈ ont.skills, ∀ k ∈ cat.2, k ≠ "")
    (hnlp : nlp "" = []) :
    extract_skills_with_nlp ont nlp "" = [] ∧
    skillLevelsFromText ont nlp "" = [] := by
  have hos : ontologyScan ont "" = [] := by
    unfold ontologyScan
    rw [List.flatMap_eq_nil_iff]
    intro cat hcat
    rw [List.filter_eq_nil_iff]
    intro k hk2
    have hpy : pyIn (strLower k) "" = false :=
      pyIn_empty_hay (strLower_ne_empty (hk cat hcat k hk2))
    simp [hpy]
  have hext : extract_skills_with_nlp ont nlp "" = [] := by
    unfold extract_skills_with_nlp
    rw [strLower_empty, hnlp, hos]
    rfl
  refine ⟨hext, ?_⟩
  unfold skillLevelsFromText
  rw [hext]
  rfl

/-- Witness for the amended C8 at the concrete witness ontology. -/
theorem C8_witness :
    (∀ cat ∈ sampleOntology.skills, ∀ k ∈ cat.2, k ≠ "") ∧
    skillLevelsFromText sampleOntology sampleNlp "" = [] :=
  ⟨by decide, (C8_empty_text_amended (by decide) rfl).2⟩

/-- C9: `extract_text` raises the unsupported-format error exactly on the
extensions outside `.pdf`/`.docx`/`.txt` (on a supported extension it
defers to that format's converter), and any extraction failure surfaces
from `parse_resume` as a per-document error, with no skill extraction. -/
theorem C9_unsupported_format_dispatch {ex : TextExtractors} {p : FsPath} :
    (strLower p.suffix ∉ ([".pdf", ".docx", ".txt"] : List String) →
      extract_text ex p =
        Except.error ("Unsupported file format: " ++ strLower p.suffix)) ∧
    (strLower p.suffix = ".pdf" → extract_text ex p = ex.pdf p) ∧
    (strLower p.suffix = ".docx" → extract_text ex p = ex.docx p) ∧
    (strLower p.suffix = ".txt" → extract_text ex p = ex.txt p) ∧
    (∀ (ont : Ontology) (nlp : String → List NlpToken) (e : String),
      extract_text ex p = Except.error e →
      parse_resume ont nlp ex p =
        Except.error ("Error extracting text from " ++ p.path ++ ": " ++ e)) := by
  refine ⟨?_, ?_, ?_, ?_, ?_⟩
  · intro hns
    simp only [List.mem_cons, List.not_mem_nil, or_false, not_or] at hns
    obtain ⟨h1, h2, h3⟩ := hns
    simp only [extract_text]
    rw [if_neg h1, if_neg h2, if_neg h3]
  · intro h1
    simp only [extract_text]
    rw [if_pos h1]
  · intro h2
    simp only [extract_text]
    rw [h2]
    rw [if_neg (by decide), if_pos rfl]
  · intro h3
    simp only [extract_text]
    rw [h3]
    rw [if_neg (by decide), if_neg (by decide), if_pos rfl]
  · intro ont nlp e he
    unfold parse_resume
    rw [he]

/-- Witness for C9: a `.MD` file is rejected with the unsupported-format
error. -/
theorem C9_witness :
    strLower (FsPath.mk "notes.md" ".MD").suffix ∉
      ([".pdf", ".docx", ".txt"] : List String) ∧
    extract_text sampleExtractors (FsPath.mk "notes.md" ".MD") =
      Except.error ("Unsupported file format: " ++
        strLower (FsPath.mk "notes.md" ".MD").suffix) :=
  ⟨by decide, C9_unsupported_format_dispatch.1 (by decide)⟩

/-! ### Claim theorems: report assembly and the generation calls -/

@[simp] theorem keysOf_append {β : Type} {l1 l2 : List (String × β)} :
    keysOf (l1 ++ l2) = keysOf l1 ++ keysOf l2 := List.map_append ..

theorem analyze_gap_analysis_eq {gen : String → Int → Int → GenResult}
    {O R : SkillMap} :
    (analyze_skill_gap gen O R).gap_analysis = classifyLoop O R := rfl

theorem analyze_learning_paths_eq {gen : String → Int → Int → GenResult}
    {O R : SkillMap} :
    (analyze_skill_gap gen O R).learning_paths =
      (missingPathsLoop gen (classifyLoop O R).missing_skills).1 ++
        (belowPathsLoop gen (classifyLoop O R).below_level_skills).1 := rfl

theorem analyze_calls_eq {gen : String → Int → Int → GenResult}
    {O R : SkillMap} :
    (analyze_skill_gap gen O R).calls =
      (missingPathsLoop gen (classifyLoop O R).missing_skills).2 ++
        (belowPathsLoop gen (classifyLoop O R).below_level_skills).2 := rfl

/-- Pairwise disjointness of the three partitions' key sets (for
duplicate-free requirements). -/
theorem keys_partitions_disjoint {O R : SkillMap} (hR : (keysOf R).Nodup)
    {s : String} :
    ¬(s ∈ keysOf (classifyLoop O R).missing_skills ∧
      s ∈ keysOf (classifyLoop O R).matching_skills) ∧
    ¬(s ∈ keysOf (classifyLoop O R).missing_skills ∧
      s ∈ keysOf (classifyLoop O R).below_level_skills) ∧
    ¬(s ∈ keysOf (classifyLoop O R).matching_skills ∧
      s ∈ keysOf (classifyLoop O R).below_level_skills) := by
  refine ⟨?_, ?_, ?_⟩
  · rintro ⟨h1, h2⟩
    obtain ⟨_, hn⟩ := keys_missing_iff.mp h1
    obtain ⟨r, c, _, hc, _⟩ := keys_matching_iff.mp h2
    rw [hn] at hc
    exact absurd hc (by simp)
  · rintro ⟨h1, h2⟩
    obtain ⟨_, hn⟩ := keys_missing_iff.mp h1
    obtain ⟨r, c, _, hc, _⟩ := keys_below_iff.mp h2
    rw [hn] at hc
    exact absurd hc (by simp)
  · rintro ⟨h1, h2⟩
    obtain ⟨r1, c1, hr1, hc1, hge⟩ := keys_matching_iff.mp h1
    obtain ⟨r2, c2, hr2, hc2, hlt⟩ := keys_below_iff.mp h2
    have hc : c1 = c2 := by
      rw [hc1] at hc2
      exact Option.some.injEq .. ▸ hc2
    have hr : r1 = r2 := keys_nodup_unique hR hr1 hr2
    omega

theorem missing_keys_nodup {O R : SkillMap} (hR : (keysOf R).Nodup) :
    (keysOf (classifyLoop O R).missing_skills).Nodup :=
  List.Nodup.sublist partition_keys_sublist.1 hR

theorem below_keys_nodup {O R : SkillMap} (hR : (keysOf R).Nodup) :
    (keysOf (classifyLoop O R).below_level_skills).Nodup :=
  List.Nodup.sublist partition_keys_sublist.2.2 hR

/-- C5: a failed generation call for a missing or below-level skill leaves
that skill's entry in its partition, keeps the skill out of
`learning_paths`, and aborts nothing; `generate_learning_path` itself
always returns a tagged success/failure dictionary and never propagates
an exception. -/
theorem C5_soft_failure_isolation
    (gen : String → Int → Int → GenResult) {O R : SkillMap} {s : String}
    {e : GapEntry} {err : String} (hR : (keysOf R).Nodup) :
    ((s, e) ∈ (classifyLoop O R).missing_skills →
      gen s 0 e.required_level = GenResult.failure err →
      (s, e) ∈ (analyze_skill_gap gen O R).gap_analysis.missing_skills ∧
        s ∉ keysOf (analyze_skill_gap gen O R).learning_paths) ∧
    ((s, e) ∈ (classifyLoop O R).below_level_skills →
      gen s e.current_level e.required_level = GenResult.failure err →
      (s, e) ∈ (analyze_skill_gap gen O R).gap_analysis.below_level_skills ∧
        s ∉ keysOf (analyze_skill_gap gen O R).learning_paths) ∧
    (∀ (gc : Except String String) (jl : String → Except String String)
        (cl : String → String),
      (∃ d, generate_learning_path gc jl cl = GenResult.success d) ∨
      (∃ er, generate_learning_path gc jl cl = GenResult.failure er)) := by
  refine ⟨?_, ?_, ?_⟩
  · intro hmem hfail
    rw [analyze_gap_analysis_eq, analyze_learning_paths_eq, keysOf_append]
    refine ⟨hmem, ?_⟩
    intro hs
    rcases List.mem_append.mp hs with hs | hs
    · obtain ⟨e', d, he', hgen⟩ := mem_keys_missingPathsLoop hs
      have heq : e' = e := keys_nodup_unique (missing_keys_nodup hR) he' hmem
      rw [heq, hfail] at hgen
      simp at hgen
    · obtain ⟨e', d, he', hgen⟩ := mem_keys_belowPathsLoop hs
      have h1 : dictLookup s O = some e'.current_level :=
        (mem_below_iff.mp he').2.1
      have h2 : dictLookup s O = none := (mem_missing_iff.mp hmem).2.2
      rw [h2] at h1
      simp at h1
  · intro hmem hfail
    rw [analyze_gap_analysis_eq, analyze_learning_paths_eq, keysOf_append]
    refine ⟨hmem, ?_⟩
    intro hs
    rcases List.mem_append.mp hs with hs | hs
    · obtain ⟨e', d, he', hgen⟩ := mem_keys_missingPathsLoop hs
      have h1 : dictLookup s O = none := (mem_missing_iff.mp he').2.2
      have h2 : dictLookup s O = some e.current_level :=
        (mem_below_iff.mp hmem).2.1
      rw [h1] at h2
      simp at h2
    · obtain ⟨e', d, he', hgen⟩ := mem_keys_belowPathsLoop hs
      have heq : e' = e := keys_nodup_unique (below_keys_nodup hR) he' hmem
      rw [heq, hfail] at hgen
      simp at hgen
  · intro gc jl cl
    unfold generate_learning_path
    cases gc with
    | error e2 => exact Or.inr ⟨e2, rfl⟩
    | ok t =>
      cases hj : jl (cl t) with
      | error e2 =>
        refine Or.inr ⟨e2, ?_⟩
        simp [hj]
      | ok d =>
        refine Or.inl ⟨d, ?_⟩
        simp [hj]

/-- A generation collaborator that reports failure for every request
(e.g. every response payload is malformed). -/
def failingGen : String → Int → Int → GenResult :=
  fun _ _ _ => GenResult.failure "malformed payload"

/-- Witness for C5: with every generation call failing, `Data Analysis`
stays in `missing_skills` and gets no learning path. -/
theorem C5_witness :
    (keysOf sampleRequired).Nodup ∧
    (("Data Analysis", GapEntry.mk 3 0) ∈
        (analyze_skill_gap failingGen sampleObserved
          sampleRequired).gap_analysis.missing_skills ∧
      "Data Analysis" ∉
        keysOf (analyze_skill_gap failingGen sampleObserved
          sampleRequired).learning_paths) :=
  ⟨by decide,
   (C5_soft_failure_isolation failingGen (by decide)).1 (by decide) rfl⟩

/-- C6: during one `analyze_skill_gap` call the generation collaborator
is invoked once per missing skill, then once per below-level skill, in
that order, and never for a matching skill (matching skills only get
the separate `get_skill_improvement_tips` on demand from the display
layer). -/
theorem C6_generation_call_discipline
    (gen : String → Int → Int → GenResult) {O R : SkillMap}
    (hR : (keysOf R).Nodup) :
    (analyze_skill_gap gen O R).calls =
      (classifyLoop O R).missing_skills.map
          (fun q => (q.1, (0 : Int), q.2.required_level)) ++
        (classifyLoop O R).below_level_skills.map
          (fun q => (q.1, q.2.current_level, q.2.required_level)) ∧
    (∀ s : String,
      s ∈ keysOf (classifyLoop O R).missing_skills ∨
        s ∈ keysOf (classifyLoop O R).below_level_skills →
      ((analyze_skill_gap gen O R).calls.countP (fun c => c.1 == s)) = 1) ∧
    (∀ s : String, s ∈ keysOf (classifyLoop O R).matching_skills →
      ∀ c t : Int, (s, c, t) ∉ (analyze_skill_gap gen O R).calls) := by
  have hcalls : (analyze_skill_gap gen O R).calls =
      (classifyLoop O R).missing_skills.map
          (fun q => (q.1, (0 : Int), q.2.required_level)) ++
        (classifyLoop O R).below_level_skills.map
          (fun q => (q.1, q.2.current_level, q.2.required_level)) := by
    rw [analyze_calls_eq, missingPathsLoop_calls, belowPathsLoop_calls]
  refine ⟨hcalls, ?_, ?_⟩
  · intro s hs
    have hsplit : ((analyze_skill_gap gen O R).calls.countP (fun c => c.1 == s)) =
        (keysOf (classifyLoop O R).missing_skills).countP (· == s) +
          (keysOf (classifyLoop O R).below_level_skills).countP (· == s) := by
      rw [hcalls, List.countP_append, List.countP_map, List.countP_map]
      unfold keysOf
      rw [List.countP_map, List.countP_map]
      rfl
    rw [hsplit]
    rcases hs with hs | hs
    · have h1 : (keysOf (classifyLoop O R).missing_skills).countP (· == s) = 1 :=
        List.count_eq_one_of_mem (missing_keys_nodup hR) hs
      have hnb : s ∉ keysOf (classifyLoop O R).below_level_skills :=
        fun hb => (keys_partitions_disjoint hR).2.1 ⟨hs, hb⟩
      have h2 : (keysOf (classifyLoop O R).below_level_skills).countP (· == s) = 0 :=
        List.count_eq_zero.mpr hnb
      omega
    · have h1 : (keysOf (classifyLoop O R).below_level_skills).countP (· == s) = 1 :=
        List.count_eq_one_of_mem (below_keys_nodup hR) hs
      have hnm : s ∉ keysOf (classifyLoop O R).missing_skills :=
        fun hm => (keys_partitions_disjoint hR).2.1 ⟨hm, hs⟩
      have h2 : (keysOf (classifyLoop O R).missing_skills).countP (· == s) = 0 :=
        List.count_eq_zero.mpr hnm
      omega
  · intro s hs c t hmem
    rw [hcalls] at hmem
    rcases List.mem_append.mp hmem with hm | hm
    · obtain ⟨q, hq, hfq⟩ := List.mem_map.mp hm
      have hq1 : q.1 = s := (Prod.mk.injEq .. ▸ hfq).1
      have hsm : s ∈ keysOf (classifyLoop O R).missing_skills :=
        List.mem_map.mpr ⟨q, hq, hq1⟩
      exact (keys_partitions_disjoint hR).1 ⟨hsm, hs⟩
    · obtain ⟨q, hq, hfq⟩ := List.mem_map.mp hm
      have hq1 : q.1 = s := (Prod.mk.injEq .. ▸ hfq).1
      have hsb : s ∈ keysOf (classifyLoop O R).below_level_skills :=
        List.mem_map.mpr ⟨q, hq, hq1⟩
      exact (keys_partitions_disjoint hR).2.2 ⟨hs, hsb⟩

/-- Witness for C6: the concrete call trace is the missing skill
(`Data Analysis`, from 0 to 3) followed by the two below-level skills, in
partition order. -/
theorem C6_witness :
    (keysOf sampleRequired).Nodup ∧
    (analyze_skill_gap failingGen sampleObserved sampleRequired).calls =
      (classifyLoop sampleObserved sampleRequired).missing_skills.map
          (fun q => (q.1, (0 : Int), q.2.required_level)) ++
        (classifyLoop sampleObserved sampleRequired).below_level_skills.map
          (fun q => (q.1, q.2.current_level, q.2.required_level)) :=
  ⟨by decide, (C6_generation_call_discipline failingGen (by decide)).1⟩
